import Mathlib

/-!
Shallow embedding of the memory-management core of the assistant repository:
the semantic store with dedup and enrichment (src/modules/vectorDB.js), the
relational ledger (src/modules/sqlDB.js), the classification wrappers of
src/modules/memoryProcessor.js, the conversation cache and the per-turn chat
pipeline (src/modules/aiChat.js), and the daily consolidation job
(src/utils/scheduler.js).

The remote AI service itself (OpenAI embeddings, chat completions) is
external: each call site takes the raw model response as an explicit
function parameter, with none standing for a thrown or malformed call.  The
wrapper logic around those calls — context-window slicing, parse fallbacks,
chunk splitting and filtering, catch-and-degrade error handling — is
embedded from memoryProcessor.js.  Store identifiers produced by uuidv4 are
supplied as an input stream of fresh ids, and failures of the fallible
store calls are driven by explicit boolean switches, so that the catch and
rethrow structure of the JavaScript is mirrored by total functions.
-/

namespace Assistant

/-- Configured dedup threshold, config.memory.dedupThreshold default 0.15. -/
def dedupThreshold : ℚ := 15 / 100

/-- Metadata fields carried by a record of the semantic-store collection.
Absent JavaScript object fields are modelled as none. -/
structure Metadata where
  source_message_id : Option String := none
  timestamp : Option String := none
  category : Option String := none
  processed_type : Option String := none
  source_messages : Option String := none
  last_updated : Option String := none
  enriched : Bool := false
  message_count : Option Nat := none
  created_at : Option String := none
deriving DecidableEq

/-- One embedded document in the Chroma collection. -/
structure VecRecord where
  id : String
  document : String
  embedding : List ℚ
  metadata : Metadata
deriving DecidableEq

/-- Nearest record of the collection by embedding distance to the query
vector, together with that distance; models collection.query with
nResults 1.  Ties keep the earlier record. -/
def nearestNeighbor (dist : List ℚ → List ℚ → ℚ) (q : List ℚ) :
    List VecRecord → Option (VecRecord × ℚ)
  | [] => none
  | r :: rs =>
    match nearestNeighbor dist q rs with
    | none => some (r, dist q r.embedding)
    | some (b, db) =>
      let dr := dist q r.embedding
      if dr ≤ db then some (r, dr) else some (b, db)

/-- Result of checkDuplicate in vectorDB.js. -/
inductive DupResult where
  | dup (existingId existingText : String) (similarity : ℚ)
  | noDup
deriving DecidableEq

/-- checkDuplicate: query the single nearest neighbor of the embedding of
factText and report a duplicate exactly when its distance is strictly
below the threshold. -/
def checkDuplicate (embed : String → List ℚ) (dist : List ℚ → List ℚ → ℚ)
    (coll : List VecRecord) (factText : String) (threshold : ℚ) : DupResult :=
  match nearestNeighbor dist (embed factText) coll with
  | some (r, d) => if d < threshold then .dup r.id r.document d else .noDup
  | none => .noDup

/-- The source_messages accumulation of enrichExistingFact: JavaScript
truthiness makes an absent or empty existing field yield just the new
message id, otherwise the new id is appended after a comma. -/
def mergeSources (existing : Option String) (newMessageId : String) : String :=
  match existing with
  | some s => if s = "" then newMessageId else s ++ "," ++ newMessageId
  | none => newMessageId

/-- The metadata update performed by enrichExistingFact on the matched
record: the spread of the existing metadata with last_updated,
source_messages and enriched overridden. -/
def enrichRecord (factId newMessageId newTimestamp : String) (r : VecRecord) :
    VecRecord :=
  if r.id = factId then
    { r with metadata :=
        { r.metadata with
            last_updated := some newTimestamp,
            source_messages := some (mergeSources r.metadata.source_messages newMessageId),
            enriched := true } }
  else r

/-- enrichExistingFact: update only the metadata of the record with the
given id; document and embedding are untouched, newText is ignored by the
source as well. -/
def enrichExistingFact (coll : List VecRecord)
    (factId newText newMessageId newTimestamp : String) : List VecRecord :=
  coll.map (enrichRecord factId newMessageId newTimestamp)

/-- Outcome of storeFactSafely. -/
inductive StoreOutcome where
  | new (id : String)
  | enriched (id : String)
  | failed (reason : String)
deriving DecidableEq

/-- storeFactSafely: dedup check against the configured threshold, then
either enrichment of the existing record or creation of a new record
carrying the fresh id and immediate-path metadata. -/
def storeFactSafely (embed : String → List ℚ) (dist : List ℚ → List ℚ → ℚ)
    (freshId : String) (coll : List VecRecord)
    (factText messageId timestamp category : String) :
    List VecRecord × StoreOutcome :=
  match checkDuplicate embed dist coll factText dedupThreshold with
  | .dup existingId _ _ =>
      (enrichExistingFact coll existingId factText messageId timestamp,
       .enriched existingId)
  | .noDup =>
      (coll ++ [{ id := freshId, document := factText, embedding := embed factText,
                  metadata :=
                    { source_message_id := some messageId,
                      timestamp := some timestamp,
                      category := some category,
                      processed_type := some "immediate",
                      source_messages := some messageId } }],
       .new freshId)

/-- storeMemory, the batch-path write: no duplicate check, an
unconditional add of a fresh record whose metadata is the given metadata
overridden with a creation timestamp and processed_type batch. -/
def storeMemory (embed : String → List ℚ) (freshId nowTs : String)
    (coll : List VecRecord) (narrative : String) (metadata : Metadata) :
    List VecRecord :=
  coll ++ [{ id := freshId, document := narrative, embedding := embed narrative,
             metadata :=
               { metadata with timestamp := some nowTs, processed_type := some "batch" } }]

/-- One row of the ProcessedMessage table (the ledger). -/
structure LedgerRecord where
  messageId : String
  processingType : String
  storedIn : Option String
deriving DecidableEq

/-- isMessageProcessed: a row with this messageId exists. -/
def isMessageProcessed (ledger : List LedgerRecord) (messageId : String) : Bool :=
  ledger.any fun r => r.messageId = messageId

/-- markMessageProcessed: prisma upsert keyed on the unique messageId —
update the row holding that key in place, otherwise append a new row. -/
def markMessageProcessed : List LedgerRecord → String → String → Option String →
    List LedgerRecord
  | [], messageId, processingType, storedIn =>
      [{ messageId := messageId, processingType := processingType, storedIn := storedIn }]
  | r :: rs, messageId, processingType, storedIn =>
      if r.messageId = messageId then
        { r with processingType := processingType, storedIn := storedIn } :: rs
      else r :: markMessageProcessed rs messageId processingType storedIn

/-- First ledger row with the given messageId, if any. -/
def ledgerLookup (ledger : List LedgerRecord) (messageId : String) :
    Option LedgerRecord :=
  ledger.find? fun r => r.messageId = messageId

/-- One row of the Event table; addEvent in sqlDB.js. -/
structure EventRec where
  date : String
  description : String
  participants : Option String := none
  context : Option String := none
deriving DecidableEq

/-- One entry of the module-level conversation_cache array in aiChat.js.
User entries carry a messageId and a timestamp; assistant entries carry
neither field. -/
structure CacheEntry where
  role : String
  content : String
  messageId : Option String := none
  timestamp : Option String := none
deriving DecidableEq

/-- The user entry pushed by handleAIChat before immediate storage. -/
def userEntry (author input msgId ts : String) : CacheEntry :=
  { role := "user", content := author ++ ": " ++ input,
    messageId := some msgId, timestamp := some ts }

/-- The assistant entry pushed by handleAIChat after the reply is
generated: role and content only, no messageId. -/
def assistantEntry (botReply : String) : CacheEntry :=
  { role := "assistant", content := botReply }

/-- Cache bound checked at the end of a turn, conversation_cache.length over 50. -/
def cacheMaxSize : Nat := 50

/-- Truncation target, conversation_cache.slice applied at minus 40. -/
def cacheTrimTo : Nat := 40

/-- End-of-turn trim: when the cache holds more than cacheMaxSize entries,
keep only the last cacheTrimTo of them. -/
def trimCache (cache : List CacheEntry) : List CacheEntry :=
  if cache.length > cacheMaxSize then cache.drop (cache.length - cacheTrimTo)
  else cache

/-- JavaScript truthiness of msg.messageId: present and non-empty. -/
def entryHasMessageId (e : CacheEntry) : Bool :=
  match e.messageId with
  | some mid => mid ≠ ""
  | none => false

/-- Whole-system state touched by the pipelines: the conversation cache,
the ledger, the semantic collection and the relational Event table. -/
structure SysState where
  cache : List CacheEntry
  ledger : List LedgerRecord
  coll : List VecRecord
  events : List EventRec
deriving DecidableEq

/-! ## Classification wrappers, src/modules/memoryProcessor.js -/

/-- Configured context window size, config.memory.contextWindowSize
default 10. -/
def contextWindowSize : Nat := 10

/-- The slice with negative index used by the context windows: the last n
entries of the list (n positive). -/
def lastN (n : Nat) (l : List CacheEntry) : List CacheEntry :=
  l.drop (l.length - n)

/-- Importance judgment parsed from the model response of
detectImportance: important, reason and a category among fact, event,
todo, reminder, none. -/
structure Importance where
  important : Bool
  reason : String := ""
  category : String
deriving DecidableEq

/-- One extracted fact parsed from the model response of
extractWithContext: text, category and confidence. -/
structure ExtractedFact where
  text : String
  category : String
  confidence : ℚ := 0
deriving DecidableEq

/-- One memory chunk produced by processConversations for batch storage. -/
structure Chunk where
  narrative : String
  metadata : Metadata
deriving DecidableEq

/-- detectImportance: build the context window from the last
contextWindowSize cached turns and ask the model (a parameter from the
current message and that window to the parsed judgment, none standing for
a thrown call or unparsable output); any error degrades to a
not-important judgment with category none. -/
def detectImportance (model : String → List CacheEntry → Option Importance)
    (message : String) (conversationContext : List CacheEntry) : Importance :=
  let contextWindow := lastN contextWindowSize conversationContext
  match model message contextWindow with
  | some judgment => judgment
  | none => { important := false, reason := "error", category := "none" }

/-- extractWithContext: same context window, model response parsed to the
facts list; a thrown call or a response without facts yields the empty
list.  The messageId argument is unused by the source as well. -/
def extractWithContext (model : String → List CacheEntry → Option (List ExtractedFact))
    (currentMessage : String) (conversationCache : List CacheEntry)
    (messageId : String) : List ExtractedFact :=
  let contextWindow := lastN contextWindowSize conversationCache
  match model currentMessage contextWindow with
  | some facts => facts
  | none => []

/-- processConversations: no messages yield no chunks; otherwise the
joined conversation text goes to the model (a parameter to its raw
delimited output, none standing for a thrown call), and the trimmed
response is split on the bar separator, each chunk trimmed, chunks of at
most 20 characters discarded, the survivors tagged with message_count and
a creation timestamp. -/
def processConversations (model : String → Option String) (nowTs : String)
    (messages : List CacheEntry) : List Chunk :=
  if messages.isEmpty then []
  else
    match model (String.intercalate "\n" (messages.map fun m => m.content)) with
    | none => []
    | some responseText =>
      (((responseText.trim.splitOn "|").map fun chunk => chunk.trim).filter
          fun chunk => chunk.length > 20).map
        fun chunk =>
          { narrative := chunk,
            metadata := { message_count := some messages.length,
                          created_at := some nowTs } }

/-- reformulateQuery: with no recent context the raw query is returned;
otherwise the model (a parameter from the query and the last three cached
turns to its raw response, none standing for a thrown call) is asked and
its trimmed response returned, a thrown call degrading to the raw
query. -/
def reformulateQuery (model : String → List CacheEntry → Option String)
    (query : String) (conversationContext : List CacheEntry) : String :=
  let recentContext := lastN 3 conversationContext
  if recentContext.isEmpty then query
  else
    match model query recentContext with
    | some response => response.trim
    | none => query

/-! ## Consolidation scheduler, src/utils/scheduler.js -/

/-- Gathering step of the consolidation run: the cache entries whose
messageId is truthy and has no ledger row yet. -/
def gatherUnprocessed (ledger : List LedgerRecord) (cache : List CacheEntry) :
    List CacheEntry :=
  cache.filter fun m =>
    entryHasMessageId m && !(isMessageProcessed ledger (m.messageId.getD ""))

/-- Storing step of the run: each chunk is written through storeMemory,
consuming one fresh id per chunk. -/
def storeChunks (embed : String → List ℚ) (nowTs : String) :
    List String → List VecRecord → List Chunk → List VecRecord
  | _, coll, [] => coll
  | ids, coll, c :: cs =>
      storeChunks embed nowTs ids.tail
        (storeMemory embed (ids.headD "") nowTs coll c.narrative c.metadata) cs

/-- MarkingLedger step of the run: every gathered message with a truthy
messageId is upserted as batch and consolidated. -/
def markAllBatch (ledger : List LedgerRecord) : List CacheEntry → List LedgerRecord
  | [] => ledger
  | m :: ms =>
      markAllBatch
        (if entryHasMessageId m then
          markMessageProcessed ledger (m.messageId.getD "") "batch" (some "consolidated")
        else ledger) ms

/-- The cron callback of scheduler.js on its non-throwing path.  The bulk
extraction step is a parameter from gathered entries to chunks, so that
the statements below hold for every extraction result; instantiating it
with an application of processConversations recovers the concrete call of
the source.  Gathering an empty set returns early; otherwise chunks are
stored and the gathered messages marked only when at least one chunk came
back, and the cache is cleared in every non-early-return case. -/
def runConsolidation (embed : String → List ℚ) (freshIds : List String)
    (nowTs : String) (chunksOf : List CacheEntry → List Chunk)
    (st : SysState) : SysState :=
  let unprocessedMessages := gatherUnprocessed st.ledger st.cache
  if unprocessedMessages.isEmpty then st
  else
    let chunks := chunksOf unprocessedMessages
    if chunks.length > 0 then
      { st with
          cache := [],
          coll := storeChunks embed nowTs freshIds st.coll chunks,
          ledger := markAllBatch st.ledger unprocessedMessages }
    else
      { st with cache := [] }

/-! ## Immediate chat pipeline, src/modules/aiChat.js handleAIChat -/

/-- Failure switches for the fallible store calls of one turn:
storeFactFails models an error caught inside storeFactSafely (returned as
a failed outcome); addEventFails and markFails model addEvent and
markMessageProcessed rethrowing. -/
structure StoreFailures where
  addEventFails : Bool := false
  markFails : Bool := false
  storeFactFails : Bool := false
deriving DecidableEq

/-- What the chat entry point sends back to the channel: either the
generated reply together with the retrieved context, or the fixed error
apology sent from the outer catch. -/
inductive ChatResult where
  | reply (text : String) (memories : List String) (recentEvents : List EventRec)
  | errorReply
deriving DecidableEq

/-- Insertion into a list sorted by ascending distance value. -/
def insertByDist (d : VecRecord → ℚ) (r : VecRecord) :
    List VecRecord → List VecRecord
  | [] => [r]
  | x :: xs => if d r ≤ d x then r :: x :: xs else x :: insertByDist d r xs

/-- Sort the collection by ascending distance value. -/
def sortByDist (d : VecRecord → ℚ) : List VecRecord → List VecRecord
  | [] => []
  | x :: xs => insertByDist d x (sortByDist d xs)

/-- searchMemories in vectorDB.js: the nearest records to the query
embedding, at most the given limit, as their documents. -/
def searchMemories (embed : String → List ℚ) (dist : List ℚ → List ℚ → ℚ)
    (coll : List VecRecord) (query : String) (limit : Nat) : List String :=
  ((sortByDist (fun r => dist (embed query) r.embedding) coll).take limit).map
    (fun r => r.document)

/-- Insertion into a list of events sorted by descending date. -/
def insertByDateDesc (e : EventRec) : List EventRec → List EventRec
  | [] => [e]
  | x :: xs => if x.date ≤ e.date then e :: x :: xs else x :: insertByDateDesc e xs

/-- Sort events by descending date. -/
def sortByDateDesc : List EventRec → List EventRec
  | [] => []
  | x :: xs => insertByDateDesc x (sortByDateDesc xs)

/-- getRecentEvents in sqlDB.js: events dated at or after the cutoff,
newest first. -/
def getRecentEvents (cutoff : String) (events : List EventRec) : List EventRec :=
  sortByDateDesc (events.filter fun e => cutoff ≤ e.date)

/-- The fact-storing loop of the IMMEDIATE STORAGE section: fact
categories go through storeFactSafely (whose errors are swallowed), event
categories through addEvent (which rethrows on failure), all other
categories are skipped.  Returns the updated collection and event table
plus false when an addEvent throw aborted the loop. -/
def processFacts (embed : String → List ℚ) (dist : List ℚ → List ℚ → ℚ)
    (msgId ts author input : String) (addEventFails storeFactFails : Bool) :
    List ExtractedFact → List String → List VecRecord → List EventRec →
    List VecRecord × List EventRec × Bool
  | [], _, coll, events => (coll, events, true)
  | f :: fs, ids, coll, events =>
    if f.category = "fact" then
      if storeFactFails then
        processFacts embed dist msgId ts author input addEventFails storeFactFails
          fs ids coll events
      else
        processFacts embed dist msgId ts author input addEventFails storeFactFails
          fs ids.tail
          (storeFactSafely embed dist (ids.headD "") coll f.text msgId ts f.category).1
          events
    else if f.category = "event" then
      if addEventFails then (coll, events, false)
      else
        processFacts embed dist msgId ts author input addEventFails storeFactFails
          fs ids coll
          (events ++ [{ date := ts, description := f.text,
                        participants := some author, context := some input }])
    else
      processFacts embed dist msgId ts author input addEventFails storeFactFails
        fs ids coll events

/-- Tail of the turn after immediate storage: query reformulation over
the current cache, context retrieval, reply generation, the assistant
push and the end-of-turn trim. -/
def finishTurn (embed : String → List ℚ) (dist : List ℚ → List ℚ → ℚ)
    (refModel : String → List CacheEntry → Option String)
    (input botReply cutoff : String) (st : SysState) : SysState × ChatResult :=
  let searchQuery := reformulateQuery refModel input st.cache
  let memories := searchMemories embed dist st.coll searchQuery 3
  let recent := getRecentEvents cutoff st.events
  ({ st with cache := trimCache (st.cache ++ [assistantEntry botReply]) },
   .reply botReply memories recent)

/-- handleAIChat on a non-empty input: push the user entry, invoke
detectImportance on the updated cache, run immediate storage through
extractWithContext when the judgment is important and not a todo, then
retrieve context and reply.  The model responses behind the collaborator
calls are parameters, as is the generated bot reply.  A throw from
addEvent or markMessageProcessed lands in the outer catch, which keeps
all mutations made so far, skips the assistant push and the trim, and
sends the fixed error apology. -/
def handleAIChat (embed : String → List ℚ) (dist : List ℚ → List ℚ → ℚ)
    (impModel : String → List CacheEntry → Option Importance)
    (extModel : String → List CacheEntry → Option (List ExtractedFact))
    (refModel : String → List CacheEntry → Option String)
    (botReply : String) (fails : StoreFailures) (freshIds : List String)
    (author input msgId ts cutoff : String) (st : SysState) :
    SysState × ChatResult :=
  let st1 := { st with cache := st.cache ++ [userEntry author input msgId ts] }
  let importance := detectImportance impModel input st1.cache
  if importance.important = true ∧ importance.category ≠ "todo" then
    let facts := extractWithContext extModel input st1.cache msgId
    let pf := processFacts embed dist msgId ts author input fails.addEventFails
      fails.storeFactFails facts freshIds st1.coll st1.events
    let st2 := { st1 with coll := pf.1, events := pf.2.1 }
    if pf.2.2 = false then (st2, .errorReply)
    else if fails.markFails then (st2, .errorReply)
    else
      finishTurn embed dist refModel input botReply cutoff
        { st2 with
            ledger := markMessageProcessed st2.ledger msgId "immediate"
              (some importance.category) }
  else
    finishTurn embed dist refModel input botReply cutoff st1

/-! ## Helper lemmas -/

/-- The new-fact record created by the non-duplicate branch of
storeFactSafely. -/
def newFactRecord (embed : String → List ℚ)
    (freshId factText messageId timestamp category : String) : VecRecord :=
  { id := freshId, document := factText, embedding := embed factText,
    metadata :=
      { source_message_id := some messageId,
        timestamp := some timestamp,
        category := some category,
        processed_type := some "immediate",
        source_messages := some messageId } }

theorem enrichExistingFact_length (coll : List VecRecord)
    (factId newText newMessageId newTimestamp : String) :
    (enrichExistingFact coll factId newText newMessageId newTimestamp).length
      = coll.length := by
  simp [enrichExistingFact]

theorem storeFactSafely_dup (embed : String → List ℚ)
    (dist : List ℚ → List ℚ → ℚ) (freshId : String) (coll : List VecRecord)
    (factText msgId ts cat : String) (r : VecRecord) (d : ℚ)
    (h : nearestNeighbor dist (embed factText) coll = some (r, d))
    (hd : d < dedupThreshold) :
    storeFactSafely embed dist freshId coll factText msgId ts cat =
      (enrichExistingFact coll r.id factText msgId ts, .enriched r.id) := by
  simp [storeFactSafely, checkDuplicate, h, hd]

theorem storeFactSafely_new (embed : String → List ℚ)
    (dist : List ℚ → List ℚ → ℚ) (freshId : String) (coll : List VecRecord)
    (factText msgId ts cat : String) (r : VecRecord) (d : ℚ)
    (h : nearestNeighbor dist (embed factText) coll = some (r, d))
    (hd : dedupThreshold ≤ d) :
    storeFactSafely embed dist freshId coll factText msgId ts cat =
      (coll ++ [newFactRecord embed freshId factText msgId ts cat], .new freshId) := by
  simp [storeFactSafely, checkDuplicate, h, not_lt.mpr hd, newFactRecord]

/-! ## Claims -/

/-- Claim C4: for every call of the fact-store operation with a nearest
neighbor at distance d, the operation enriches the existing record (and
returns its id) exactly when d is strictly below the dedup threshold
(default 0.15), and creates a fresh record returning outcome new when d
is at or above the threshold; the boundary d equal to the threshold falls
on the new side. -/
theorem store_dedup_threshold (embed : String → List ℚ)
    (dist : List ℚ → List ℚ → ℚ) (freshId : String) (coll : List VecRecord)
    (factText msgId ts cat : String) (r : VecRecord) (d : ℚ)
    (h : nearestNeighbor dist (embed factText) coll = some (r, d)) :
    (d < dedupThreshold →
      storeFactSafely embed dist freshId coll factText msgId ts cat =
        (enrichExistingFact coll r.id factText msgId ts, .enriched r.id)) ∧
    (dedupThreshold ≤ d →
      storeFactSafely embed dist freshId coll factText msgId ts cat =
        (coll ++ [newFactRecord embed freshId factText msgId ts cat], .new freshId)) :=
  ⟨fun hd => storeFactSafely_dup embed dist freshId coll factText msgId ts cat r d h hd,
   fun hd => storeFactSafely_new embed dist freshId coll factText msgId ts cat r d h hd⟩

/-- Metadata value with every field at its default. -/
def emptyMeta : Metadata := {}

/-- Concrete single-record collection used to instantiate the dedup
theorems. -/
def pizzaRecord : VecRecord :=
  { id := "F1", document := "likes pizza", embedding := [0],
    metadata := { source_messages := some "A" } }

/-- Flat embedding used by the concrete instantiations. -/
def constEmbed : String → List ℚ := fun _ => [0]

/-- Distance function returning 0.08 on every pair. -/
def nearDist : List ℚ → List ℚ → ℚ := fun _ _ => 8 / 100

/-- Distance function returning exactly the threshold 0.15 on every pair. -/
def boundaryDist : List ℚ → List ℚ → ℚ := fun _ _ => 15 / 100

/-- Witness for store_dedup_threshold: at distance 0.08 the store call
enriches record F1, and at distance exactly 0.15 it creates a new
record. -/
theorem store_dedup_threshold_witness :
    storeFactSafely constEmbed nearDist "F2" [pizzaRecord]
        "really likes pizza a lot" "B" "t1" "fact" =
      (enrichExistingFact [pizzaRecord] "F1" "really likes pizza a lot" "B" "t1",
       .enriched "F1") ∧
    storeFactSafely constEmbed boundaryDist "F2" [pizzaRecord]
        "prefers sushi" "B" "t1" "fact" =
      ([pizzaRecord] ++ [newFactRecord constEmbed "F2" "prefers sushi" "B" "t1" "fact"],
       .new "F2") :=
  ⟨(store_dedup_threshold constEmbed nearDist "F2" [pizzaRecord]
      "really likes pizza a lot" "B" "t1" "fact" pizzaRecord (8 / 100) rfl).1
      (by norm_num [dedupThreshold]),
   (store_dedup_threshold constEmbed boundaryDist "F2" [pizzaRecord]
      "prefers sushi" "B" "t1" "fact" pizzaRecord (15 / 100) rfl).2
      (by norm_num [dedupThreshold])⟩

/-- Claim C6: the duplicate branch changes neither the stored text nor the
embedding of any record; the record with the matched id gets exactly the
metadata update — sourceId appended comma-separated to source_messages,
last_updated set to the given timestamp, enriched set to true — and every
other record is completely unchanged. -/
theorem enrich_frame (coll : List VecRecord)
    (factId newText newMessageId newTimestamp : String) :
    (enrichExistingFact coll factId newText newMessageId newTimestamp).length
      = coll.length ∧
    ∀ i (h : i < coll.length)
      (h2 : i < (enrichExistingFact coll factId newText newMessageId newTimestamp).length),
      ((enrichExistingFact coll factId newText newMessageId newTimestamp).get ⟨i, h2⟩).id
          = (coll.get ⟨i, h⟩).id ∧
      ((enrichExistingFact coll factId newText newMessageId newTimestamp).get ⟨i, h2⟩).document
          = (coll.get ⟨i, h⟩).document ∧
      ((enrichExistingFact coll factId newText newMessageId newTimestamp).get ⟨i, h2⟩).embedding
          = (coll.get ⟨i, h⟩).embedding ∧
      ((coll.get ⟨i, h⟩).id ≠ factId →
        (enrichExistingFact coll factId newText newMessageId newTimestamp).get ⟨i, h2⟩
          = coll.get ⟨i, h⟩) ∧
      ((coll.get ⟨i, h⟩).id = factId →
        ((enrichExistingFact coll factId newText newMessageId newTimestamp).get ⟨i, h2⟩).metadata
          = { (coll.get ⟨i, h⟩).metadata with
                last_updated := some newTimestamp,
                source_messages := some
                  (mergeSources (coll.get ⟨i, h⟩).metadata.source_messages newMessageId),
                enriched := true }) := by
  refine ⟨enrichExistingFact_length coll factId newText newMessageId newTimestamp, ?_⟩
  intro i h h2
  have hg : (enrichExistingFact coll factId newText newMessageId newTimestamp).get ⟨i, h2⟩
      = enrichRecord factId newMessageId newTimestamp (coll.get ⟨i, h⟩) := by
    simp [enrichExistingFact, List.get_eq_getElem]
  rw [hg]
  unfold enrichRecord
  by_cases hid : (coll.get ⟨i, h⟩).id = factId
  · rw [if_pos hid]
    exact ⟨rfl, rfl, rfl, fun hne => absurd hid hne, fun _ => rfl⟩
  · rw [if_neg hid]
    exact ⟨rfl, rfl, rfl, fun _ => rfl, fun heq => absurd heq hid⟩

/-- Witness for enrich_frame at a two-record collection: the record F1 is
matched and only its metadata fields change; F2 stays identical. -/
theorem enrich_frame_witness :
    ((enrichExistingFact
        [pizzaRecord,
         { id := "F2", document := "prefers sushi", embedding := [0], metadata := {} }]
        "F1" "really likes pizza a lot" "B" "t1").get
        ⟨0, by simp [enrichExistingFact]⟩).metadata
      = { (pizzaRecord).metadata with
            last_updated := some "t1",
            source_messages := some (mergeSources pizzaRecord.metadata.source_messages "B"),
            enriched := true } :=
  ((enrich_frame
      [pizzaRecord,
       { id := "F2", document := "prefers sushi", embedding := [0], metadata := {} }]
      "F1" "really likes pizza a lot" "B" "t1").2 0 (by decide)
      (by simp [enrichExistingFact])).2.2.2.2 (by decide)

/-- Claim C9: the batch-path store performs no duplicate check — for every
collection it unconditionally appends a fresh record carrying the chunk
text, the given metadata plus a creation timestamp and processed_type
batch — even when an existing record lies strictly within the dedup
threshold, while the immediate-path store on the same input would enrich
in place and not grow the collection. -/
theorem storeMemory_no_dedup (embed : String → List ℚ)
    (dist : List ℚ → List ℚ → ℚ) (freshId nowTs : String)
    (coll : List VecRecord) (narrative msgId ts : String) (metadata : Metadata)
    (r : VecRecord) (d : ℚ)
    (h : nearestNeighbor dist (embed narrative) coll = some (r, d))
    (hd : d < dedupThreshold) :
    storeMemory embed freshId nowTs coll narrative metadata =
      coll ++ [{ id := freshId, document := narrative,
                 embedding := embed narrative,
                 metadata := { metadata with
                                 timestamp := some nowTs,
                                 processed_type := some "batch" } }] ∧
    (storeFactSafely embed dist freshId coll narrative msgId ts "fact").1.length
      = coll.length := by
  refine ⟨rfl, ?_⟩
  rw [storeFactSafely_dup embed dist freshId coll narrative msgId ts "fact" r d h hd]
  exact enrichExistingFact_length coll r.id narrative msgId ts

/-- Witness for storeMemory_no_dedup: with a record at distance 0.08 the
batch store still appends a second record while the immediate store would
keep the collection at one record. -/
theorem storeMemory_no_dedup_witness :
    storeMemory constEmbed "F2" "t1" [pizzaRecord] "likes pizza daily" emptyMeta =
      [pizzaRecord] ++
        [{ id := "F2", document := "likes pizza daily", embedding := constEmbed "likes pizza daily",
           metadata := { emptyMeta with
                           timestamp := some "t1",
                           processed_type := some "batch" } }] ∧
    (storeFactSafely constEmbed nearDist "F2" [pizzaRecord]
        "likes pizza daily" "B" "t1" "fact").1.length = 1 :=
  storeMemory_no_dedup constEmbed nearDist "F2" "t1" [pizzaRecord]
    "likes pizza daily" "B" "t1" emptyMeta pizzaRecord (8 / 100) rfl
    (by norm_num [dedupThreshold])

/-! ## Ledger lemmas -/

/-- The ledger invariant: messageId is a unique key. -/
def ledgerUnique (ledger : List LedgerRecord) : Prop :=
  (ledger.map fun r => r.messageId).Nodup

theorem ledgerLookup_mark_self (lg : List LedgerRecord) (mid t : String)
    (s : Option String) :
    ledgerLookup (markMessageProcessed lg mid t s) mid =
      some { messageId := mid, processingType := t, storedIn := s } := by
  induction lg with
  | nil => simp [markMessageProcessed, ledgerLookup, List.find?]
  | cons r rs ih =>
    by_cases hr : r.messageId = mid
    · simp [markMessageProcessed, hr, ledgerLookup, List.find?]
    · simp only [markMessageProcessed, if_neg hr]
      simpa [ledgerLookup, List.find?, hr] using ih

theorem ledgerLookup_mark_other (lg : List LedgerRecord) (mid mid2 t : String)
    (s : Option String) (hne : mid ≠ mid2) :
    ledgerLookup (markMessageProcessed lg mid t s) mid2 = ledgerLookup lg mid2 := by
  have hne2 : ¬ (mid2 = mid) := fun h => hne h.symm
  induction lg with
  | nil => simp [markMessageProcessed, ledgerLookup, List.find?, hne, hne2]
  | cons r rs ih =>
    by_cases hr : r.messageId = mid
    · have hr2 : ¬ r.messageId = mid2 := by rw [hr]; exact hne
      simp [markMessageProcessed, hr, ledgerLookup, List.find?, hne, hne2, hr2]
    · by_cases hr2 : r.messageId = mid2
      · simp [markMessageProcessed, hr, ledgerLookup, List.find?, hr2, hne2]
      · simp only [markMessageProcessed, if_neg hr]
        simpa [ledgerLookup, List.find?, hr2] using ih

theorem isMessageProcessed_cons (r : LedgerRecord) (l : List LedgerRecord)
    (mid2 : String) :
    isMessageProcessed (r :: l) mid2 =
      (decide (r.messageId = mid2) || isMessageProcessed l mid2) := by
  simp [isMessageProcessed]

theorem isMessageProcessed_mark (lg : List LedgerRecord) (mid mid2 t : String)
    (s : Option String) :
    isMessageProcessed (markMessageProcessed lg mid t s) mid2 =
      (decide (mid = mid2) || isMessageProcessed lg mid2) := by
  induction lg with
  | nil => simp [markMessageProcessed, isMessageProcessed, eq_comm]
  | cons r rs ih =>
    by_cases hr : r.messageId = mid
    · subst hr
      by_cases h2 : r.messageId = mid2 <;>
        simp [markMessageProcessed, isMessageProcessed, h2]
    · rw [show markMessageProcessed (r :: rs) mid t s
            = r :: markMessageProcessed rs mid t s from by
          simp [markMessageProcessed, hr]]
      rw [isMessageProcessed_cons, ih, isMessageProcessed_cons,
        Bool.or_left_comm]

theorem length_mark_of_processed (lg : List LedgerRecord) (mid t : String)
    (s : Option String) (h : isMessageProcessed lg mid = true) :
    (markMessageProcessed lg mid t s).length = lg.length := by
  induction lg with
  | nil => simp [isMessageProcessed] at h
  | cons r rs ih =>
    by_cases hr : r.messageId = mid
    · simp [markMessageProcessed, hr]
    · have hrs : isMessageProcessed rs mid = true := by
        simpa [isMessageProcessed, hr] using h
      simp [markMessageProcessed, hr, ih hrs]

theorem map_messageId_mark (lg : List LedgerRecord) (mid t : String)
    (s : Option String) :
    (markMessageProcessed lg mid t s).map (fun r => r.messageId) =
      (if isMessageProcessed lg mid then lg.map fun r => r.messageId
       else (lg.map fun r => r.messageId) ++ [mid]) := by
  induction lg with
  | nil => simp [markMessageProcessed, isMessageProcessed]
  | cons r rs ih =>
    by_cases hr : r.messageId = mid
    · have hp : isMessageProcessed (r :: rs) mid = true := by
        simp [isMessageProcessed, hr]
      simp [markMessageProcessed, hr, hp]
    · have hp : isMessageProcessed (r :: rs) mid = isMessageProcessed rs mid := by
        simp [isMessageProcessed_cons, hr]
      by_cases hrs : isMessageProcessed rs mid
      · rw [show markMessageProcessed (r :: rs) mid t s
              = r :: markMessageProcessed rs mid t s from by
            simp [markMessageProcessed, hr]]
        rw [List.map_cons, ih, if_pos hrs, hp, if_pos hrs, List.map_cons]
      · simp only [Bool.not_eq_true] at hrs
        rw [show markMessageProcessed (r :: rs) mid t s
              = r :: markMessageProcessed rs mid t s from by
            simp [markMessageProcessed, hr]]
        rw [List.map_cons, ih, hp]
        simp [hrs]

theorem ledgerUnique_mark (lg : List LedgerRecord) (mid t : String)
    (s : Option String) (h : ledgerUnique lg) :
    ledgerUnique (markMessageProcessed lg mid t s) := by
  unfold ledgerUnique at h ⊢
  rw [map_messageId_mark]
  by_cases hp : isMessageProcessed lg mid
  · simpa [hp] using h
  · have hnm : mid ∉ lg.map fun r => r.messageId := by
      intro hmem
      rcases List.mem_map.mp hmem with ⟨r, hr, hrid⟩
      have : isMessageProcessed lg mid = true := by
        simp only [isMessageProcessed, List.any_eq_true, decide_eq_true_eq]
        exact ⟨r, hr, hrid⟩
      simp [this] at hp
    simp only [if_neg hp]
    refine List.Nodup.append h (List.nodup_singleton mid) ?_
    intro a ha hb
    rw [List.mem_singleton] at hb
    subst hb
    exact hnm ha

theorem countP_messageId_le_one (lg : List LedgerRecord) (mid : String)
    (h : ledgerUnique lg) :
    lg.countP (fun r => r.messageId = mid) ≤ 1 := by
  induction lg with
  | nil => simp
  | cons r rs ih =>
    have hnod := h
    unfold ledgerUnique at hnod
    simp only [List.map_cons, List.nodup_cons] at hnod
    by_cases hr : r.messageId = mid
    · have hz : rs.countP (fun r => r.messageId = mid) = 0 := by
        rw [List.countP_eq_zero]
        intro a ha
        simp only [decide_eq_true_eq]
        intro hamid
        exact hnod.1 (List.mem_map.mpr ⟨a, ha, by rw [hamid, hr]⟩)
      simp [List.countP_cons, hr, hz]
    · have : ledgerUnique rs := hnod.2
      simpa [List.countP_cons, hr] using ih this

/-- Applying a whole sequence of ledger writes, each an upsert. -/
def applyMarks (ops : List (String × String × Option String))
    (lg : List LedgerRecord) : List LedgerRecord :=
  ops.foldl (fun l op => markMessageProcessed l op.1 op.2.1 op.2.2) lg

theorem ledgerUnique_applyMarks (ops : List (String × String × Option String))
    (lg : List LedgerRecord) (h : ledgerUnique lg) :
    ledgerUnique (applyMarks ops lg) := by
  induction ops generalizing lg with
  | nil => exact h
  | cons op ops ih => exact ih _ (ledgerUnique_mark lg op.1 op.2.1 op.2.2 h)

/-- Claim C8: starting from an empty ledger, any sequence of immediate and
batch ledger writes leaves at most one LedgerRecord per messageId, and a
write for an already-present messageId updates the existing row in place —
the row count is unchanged and the row for that id carries the new
processingType and storedIn. -/
theorem ledger_at_most_one (ops : List (String × String × Option String))
    (mid : String) (lg : List LedgerRecord) (t : String) (s : Option String)
    (hmem : isMessageProcessed lg mid = true) :
    (applyMarks ops []).countP (fun r => r.messageId = mid) ≤ 1 ∧
    (markMessageProcessed lg mid t s).length = lg.length ∧
    ledgerLookup (markMessageProcessed lg mid t s) mid =
      some { messageId := mid, processingType := t, storedIn := s } :=
  ⟨countP_messageId_le_one _ mid
      (ledgerUnique_applyMarks ops [] (by simp [ledgerUnique])),
   length_mark_of_processed lg mid t s hmem,
   ledgerLookup_mark_self lg mid t s⟩

/-- Witness for ledger_at_most_one: an immediate write followed by a batch
write for the same message keeps a single row, updated in place. -/
theorem ledger_at_most_one_witness :
    (applyMarks [("m1", "immediate", some "fact"), ("m1", "batch", some "consolidated")]
        []).countP (fun r => r.messageId = "m1") ≤ 1 ∧
    (markMessageProcessed
        [{ messageId := "m1", processingType := "immediate", storedIn := some "fact" }]
        "m1" "batch" (some "consolidated")).length =
      [({ messageId := "m1", processingType := "immediate",
          storedIn := some "fact" } : LedgerRecord)].length ∧
    ledgerLookup
        (markMessageProcessed
          [{ messageId := "m1", processingType := "immediate", storedIn := some "fact" }]
          "m1" "batch" (some "consolidated")) "m1" =
      some { messageId := "m1", processingType := "batch",
             storedIn := some "consolidated" } :=
  ledger_at_most_one
    [("m1", "immediate", some "fact"), ("m1", "batch", some "consolidated")] "m1"
    [{ messageId := "m1", processingType := "immediate", storedIn := some "fact" }]
    "batch" (some "consolidated") (by decide)

/-! ## Scheduler lemmas -/

theorem entryHasMessageId_iff (e : CacheEntry) :
    entryHasMessageId e = true ↔ ∃ mid, e.messageId = some mid ∧ mid ≠ "" := by
  cases h : e.messageId with
  | none => simp [entryHasMessageId, h]
  | some mid => simp [entryHasMessageId, h]

theorem mem_gatherUnprocessed (ledger : List LedgerRecord)
    (cache : List CacheEntry) (e : CacheEntry) :
    e ∈ gatherUnprocessed ledger cache ↔
      e ∈ cache ∧ ∃ mid, e.messageId = some mid ∧ mid ≠ "" ∧
        isMessageProcessed ledger mid = false := by
  simp only [gatherUnprocessed, List.mem_filter, Bool.and_eq_true, Bool.not_eq_true']
  constructor
  · rintro ⟨hc, hhas, hproc⟩
    rcases (entryHasMessageId_iff e).mp hhas with ⟨mid, hm, hmne⟩
    refine ⟨hc, mid, hm, hmne, ?_⟩
    simpa [hm] using hproc
  · rintro ⟨hc, mid, hm, hmne, hproc⟩
    refine ⟨hc, (entryHasMessageId_iff e).mpr ⟨mid, hm, hmne⟩, ?_⟩
    simpa [hm] using hproc

theorem ledgerLookup_markAllBatch_preserved (entries : List CacheEntry) :
    ∀ lg : List LedgerRecord, ∀ mid : String,
      ledgerLookup lg mid =
        some { messageId := mid, processingType := "batch",
               storedIn := some "consolidated" } →
      ledgerLookup (markAllBatch lg entries) mid =
        some { messageId := mid, processingType := "batch",
               storedIn := some "consolidated" } := by
  induction entries with
  | nil => intro lg mid h; exact h
  | cons m ms ih =>
    intro lg mid h
    simp only [markAllBatch]
    by_cases hm : entryHasMessageId m = true
    · rw [if_pos hm]
      apply ih
      by_cases heq : m.messageId.getD "" = mid
      · rw [heq, ledgerLookup_mark_self]
      · rw [ledgerLookup_mark_other _ _ _ _ _ heq]
        exact h
    · rw [if_neg hm]
      exact ih lg mid h

theorem ledgerLookup_markAllBatch_mem (entries : List CacheEntry) :
    ∀ lg : List LedgerRecord, ∀ e : CacheEntry, ∀ mid : String,
      e ∈ entries → e.messageId = some mid → mid ≠ "" →
      ledgerLookup (markAllBatch lg entries) mid =
        some { messageId := mid, processingType := "batch",
               storedIn := some "consolidated" } := by
  induction entries with
  | nil => intro lg e mid he; cases he
  | cons m ms ih =>
    intro lg e mid he hm hmne
    simp only [markAllBatch]
    rcases List.mem_cons.mp he with rfl | hmem
    · have hhas : entryHasMessageId e = true :=
        (entryHasMessageId_iff e).mpr ⟨mid, hm, hmne⟩
      rw [if_pos hhas]
      apply ledgerLookup_markAllBatch_preserved
      rw [show e.messageId.getD "" = mid from by rw [hm]; rfl,
        ledgerLookup_mark_self]
    · by_cases hhas : entryHasMessageId m = true
      · rw [if_pos hhas]
        exact ih _ e mid hmem hm hmne
      · rw [if_neg hhas]
        exact ih lg e mid hmem hm hmne

theorem isMessageProcessed_markAllBatch (entries : List CacheEntry) :
    ∀ lg : List LedgerRecord, ∀ mid : String,
      isMessageProcessed (markAllBatch lg entries) mid = true →
      isMessageProcessed lg mid = true ∨
        ∃ e ∈ entries, e.messageId = some mid := by
  induction entries with
  | nil => intro lg mid h; exact Or.inl h
  | cons m ms ih =>
    intro lg mid h
    simp only [markAllBatch] at h
    by_cases hm : entryHasMessageId m = true
    · rw [if_pos hm] at h
      rcases ih _ mid h with h2 | ⟨e, he, hme⟩
      · rw [isMessageProcessed_mark] at h2
        rcases (Bool.or_eq_true _ _).mp h2 with hl | hr

        · rcases (entryHasMessageId_iff m).mp hm with ⟨mid0, hm0, _⟩
          have : mid0 = mid := by
            have hgd : m.messageId.getD "" = mid0 := by rw [hm0]; rfl
            have := of_decide_eq_true hl
            rw [hgd] at this
            exact this
          subst this
          exact Or.inr ⟨m, List.mem_cons_self m ms, hm0⟩
        · exact Or.inl hr
      · exact Or.inr ⟨e, List.mem_cons_of_mem m he, hme⟩
    · rw [if_neg hm] at h
      rcases ih _ mid h with h2 | ⟨e, he, hme⟩
      · exact Or.inl h2
      · exact Or.inr ⟨e, List.mem_cons_of_mem m he, hme⟩

/-- Claim C7: a consolidation run gathers exactly the cache entries that
carry a messageId with no LedgerRecord, and when the gathered set is
empty the run returns immediately, leaving the cache untouched and the
ledger without any new record. -/
theorem consolidation_gathers_unledgered (embed : String → List ℚ)
    (freshIds : List String) (nowTs : String)
    (chunksOf : List CacheEntry → List Chunk) (st : SysState) :
    (∀ e, e ∈ gatherUnprocessed st.ledger st.cache ↔
        e ∈ st.cache ∧ ∃ mid, e.messageId = some mid ∧ mid ≠ "" ∧
          isMessageProcessed st.ledger mid = false) ∧
    (gatherUnprocessed st.ledger st.cache = [] →
      runConsolidation embed freshIds nowTs chunksOf st = st) := by
  refine ⟨fun e => mem_gatherUnprocessed st.ledger st.cache e, fun h => ?_⟩
  simp [runConsolidation, h]

/-- State with one ledgered message in the cache, so that a run gathers
nothing. -/
def allLedgeredState : SysState :=
  { cache := [{ role := "user", content := "u: hi", messageId := some "m1",
                timestamp := some "t0" }],
    ledger := [{ messageId := "m1", processingType := "immediate",
                 storedIn := some "fact" }],
    coll := [], events := [] }

/-- Witness for consolidation_gathers_unledgered: with the only cached
message already ledgered, the run is a no-op on the whole state. -/
theorem consolidation_gathers_unledgered_witness :
    runConsolidation constEmbed [] "t1" (fun _ => []) allLedgeredState
      = allLedgeredState :=
  (consolidation_gathers_unledgered constEmbed [] "t1" (fun _ => [])
    allLedgeredState).2 (by decide)

/-- The single unledgered cache entry used by the consolidation scenarios. -/
def hiEntry : CacheEntry :=
  { role := "user", content := "u: hi", messageId := some "m1",
    timestamp := some "t0" }

/-- State with one unledgered message in the cache. -/
def oneUnledgeredState : SysState :=
  { cache := [hiEntry], ledger := [], coll := [], events := [] }

/-- Counterexample to claim C2: a run that gathers one unledgered message
but whose bulk extraction yields zero chunks clears the Conversation Cache
without writing any LedgerRecord — the gathered message m1 ends up neither
cached nor ledgered. -/
theorem consolidation_zero_chunks_no_ledger :
    (runConsolidation constEmbed [] "t1" (fun _ => []) oneUnledgeredState).cache
        = [] ∧
    (runConsolidation constEmbed [] "t1" (fun _ => []) oneUnledgeredState).ledger
        = [] :=
  ⟨rfl, rfl⟩

/-- Claim C2 (amended): when a consolidation run gathers a non-empty set
and completes without error, every gathered message is ledgered as batch
and consolidated and the cache is cleared — provided at least one
extracted chunk survives; when zero chunks survive, the run writes no
LedgerRecord at all yet still clears the cache. -/
theorem consolidation_marks_when_chunks (embed : String → List ℚ)
    (freshIds : List String) (nowTs : String)
    (chunksOf : List CacheEntry → List Chunk) (st : SysState)
    (hne : gatherUnprocessed st.ledger st.cache ≠ []) :
    ((chunksOf (gatherUnprocessed st.ledger st.cache)).length > 0 →
      (runConsolidation embed freshIds nowTs chunksOf st).cache = [] ∧
      ∀ e ∈ gatherUnprocessed st.ledger st.cache, ∀ mid,
        e.messageId = some mid → mid ≠ "" →
        ledgerLookup (runConsolidation embed freshIds nowTs chunksOf st).ledger mid =
          some { messageId := mid, processingType := "batch",
                 storedIn := some "consolidated" }) ∧
    ((chunksOf (gatherUnprocessed st.ledger st.cache)).length = 0 →
      (runConsolidation embed freshIds nowTs chunksOf st).cache = [] ∧
      (runConsolidation embed freshIds nowTs chunksOf st).ledger = st.ledger) := by
  have hine : (gatherUnprocessed st.ledger st.cache).isEmpty = false := by
    cases hg : gatherUnprocessed st.ledger st.cache with
    | nil => exact absurd hg hne
    | cons a l => rfl
  constructor
  · intro hchunks
    have hrc : (runConsolidation embed freshIds nowTs chunksOf st).cache = [] := by
      simp [runConsolidation, hine, hchunks]
    have hrl : (runConsolidation embed freshIds nowTs chunksOf st).ledger
        = markAllBatch st.ledger (gatherUnprocessed st.ledger st.cache) := by
      simp [runConsolidation, hine, hchunks]
    refine ⟨hrc, ?_⟩
    intro e he mid hm hmne
    rw [hrl]
    exact ledgerLookup_markAllBatch_mem _ _ e mid he hm hmne
  · intro hzero
    constructor <;> simp [runConsolidation, hine, hzero]

/-- Extraction collaborator returning one chunk regardless of input. -/
def oneChunk : List CacheEntry → List Chunk :=
  fun _ => [{ narrative := "the user talked about weekend plans", metadata := emptyMeta }]

/-- Witness for consolidation_marks_when_chunks: gathering message m1 with
one surviving chunk clears the cache and ledgers m1 as batch and
consolidated. -/
theorem consolidation_marks_when_chunks_witness :
    (runConsolidation constEmbed ["B1"] "t1" oneChunk oneUnledgeredState).cache = [] ∧
    ledgerLookup (runConsolidation constEmbed ["B1"] "t1" oneChunk
        oneUnledgeredState).ledger "m1" =
      some { messageId := "m1", processingType := "batch",
             storedIn := some "consolidated" } := by
  have h := (consolidation_marks_when_chunks constEmbed ["B1"] "t1" oneChunk
    oneUnledgeredState (by decide)).1 (by decide)
  exact ⟨h.1, h.2 hiEntry (by decide) "m1" rfl (by decide)⟩

/-- Claim C10: assistant turns are appended to the cache without a
messageId; every gathered entry carries one, so assistant entries are
never gathered — hence never part of the batch extraction input — and a
consolidation run never ledgers any id beyond those already ledgered or
carried by a gathered entry. -/
theorem assistant_never_consolidated (embed : String → List ℚ)
    (freshIds : List String) (nowTs : String)
    (chunksOf : List CacheEntry → List Chunk) (st : SysState)
    (botReply : String) :
    (assistantEntry botReply).messageId = none ∧
    (∀ e ∈ gatherUnprocessed st.ledger st.cache, e.messageId ≠ none) ∧
    assistantEntry botReply ∉ gatherUnprocessed st.ledger st.cache ∧
    (∀ mid,
      isMessageProcessed (runConsolidation embed freshIds nowTs chunksOf st).ledger mid
          = true →
      isMessageProcessed st.ledger mid = true ∨
        ∃ e ∈ gatherUnprocessed st.ledger st.cache, e.messageId = some mid) := by
  have hsome : ∀ e ∈ gatherUnprocessed st.ledger st.cache, e.messageId ≠ none := by
    intro e he
    rcases (mem_gatherUnprocessed st.ledger st.cache e).mp he with ⟨_, mid, hm, _, _⟩
    rw [hm]
    exact fun h => Option.noConfusion h
  refine ⟨rfl, hsome, ?_, ?_⟩
  · intro hmem
    exact hsome _ hmem rfl
  · intro mid h
    by_cases hg : (gatherUnprocessed st.ledger st.cache).isEmpty = true
    · left
      simpa [runConsolidation, hg] using h
    · by_cases hc : (chunksOf (gatherUnprocessed st.ledger st.cache)).length > 0
      · have hl : (runConsolidation embed freshIds nowTs chunksOf st).ledger
            = markAllBatch st.ledger (gatherUnprocessed st.ledger st.cache) := by
          simp [runConsolidation, hg, hc]
        rw [hl] at h
        exact isMessageProcessed_markAllBatch _ _ _ h
      · left
        simpa [runConsolidation, hg, hc] using h

/-- Witness for assistant_never_consolidated: on the concrete
one-message state, the run with one chunk only ledgers an id carried by a
gathered entry. -/
theorem assistant_never_consolidated_witness :
    isMessageProcessed oneUnledgeredState.ledger "m1" = true ∨
      ∃ e ∈ gatherUnprocessed oneUnledgeredState.ledger oneUnledgeredState.cache,
        e.messageId = some "m1" :=
  (assistant_never_consolidated constEmbed ["B1"] "t1" oneChunk oneUnledgeredState
    "happy to help").2.2.2 "m1" (by decide)

/-! ## Chat pipeline lemmas -/

theorem processFacts_ok (embed : String → List ℚ) (dist : List ℚ → List ℚ → ℚ)
    (msgId ts author input : String) (storeFactFails : Bool)
    (facts : List ExtractedFact) :
    ∀ (ids : List String) (coll : List VecRecord) (events : List EventRec),
      (processFacts embed dist msgId ts author input false storeFactFails
        facts ids coll events).2.2 = true := by
  induction facts with
  | nil => intro ids coll events; rfl
  | cons f fs ih =>
    intro ids coll events
    by_cases hf : f.category = "fact"
    · by_cases hsf : storeFactFails = true
      · subst hsf
        simp [processFacts, hf, ih]
      · simp only [Bool.not_eq_true] at hsf
        subst hsf
        simp [processFacts, hf, ih]
    · by_cases he : f.category = "event"
      · simp [processFacts, hf, he, ih]
      · simp [processFacts, hf, he, ih]

theorem processFacts_fails (embed : String → List ℚ) (dist : List ℚ → List ℚ → ℚ)
    (msgId ts author input : String) (storeFactFails : Bool)
    (facts : List ExtractedFact) :
    ∀ (ids : List String) (coll : List VecRecord) (events : List EventRec),
      (∃ f ∈ facts, f.category = "event") →
      (processFacts embed dist msgId ts author input true storeFactFails
        facts ids coll events).2.2 = false := by
  induction facts with
  | nil =>
    intro ids coll events h
    rcases h with ⟨f, hf, _⟩
    cases hf
  | cons f fs ih =>
    intro ids coll events h
    by_cases hf : f.category = "fact"
    · have hex : ∃ g ∈ fs, g.category = "event" := by
        rcases h with ⟨g, hg, hev⟩
        rcases List.mem_cons.mp hg with rfl | hmem
        · rw [hf] at hev
          exact absurd hev (by decide)
        · exact ⟨g, hmem, hev⟩
      by_cases hsf : storeFactFails = true
      · subst hsf
        simp [processFacts, hf, ih _ _ _ hex]
      · simp only [Bool.not_eq_true] at hsf
        subst hsf
        simp [processFacts, hf, ih _ _ _ hex]
    · by_cases he : f.category = "event"
      · simp [processFacts, hf, he]
      · have hex : ∃ g ∈ fs, g.category = "event" := by
          rcases h with ⟨g, hg, hev⟩
          rcases List.mem_cons.mp hg with rfl | hmem
          · exact absurd hev he
          · exact ⟨g, hmem, hev⟩
        simp [processFacts, hf, he, ih _ _ _ hex]

/-- Model response judging the turn unimportant. -/
def quietImpModel : String → List CacheEntry → Option Importance :=
  fun _ _ => some { important := false, reason := "casual chat", category := "none" }

/-- Model response judging the turn an important fact. -/
def factImpModel : String → List CacheEntry → Option Importance :=
  fun _ _ => some { important := true, reason := "preference", category := "fact" }

/-- Model response judging the turn an important event. -/
def eventImpModel : String → List CacheEntry → Option Importance :=
  fun _ _ => some { important := true, reason := "dated occurrence", category := "event" }

/-- Extraction model response with a single fact. -/
def factExtModel : String → List CacheEntry → Option (List ExtractedFact) :=
  fun _ _ => some [{ text := "user likes pizza", category := "fact", confidence := 9 / 10 }]

/-- Extraction model response with a single event. -/
def eventExtModel : String → List CacheEntry → Option (List ExtractedFact) :=
  fun _ _ => some [{ text := "dinner with sam", category := "event", confidence := 9 / 10 }]

/-- Reformulation model whose call throws, degrading to the raw query. -/
def downRefModel : String → List CacheEntry → Option String :=
  fun _ _ => none

/-- No store failure. -/
def noFailures : StoreFailures := {}

/-- Failing relational Event write. -/
def eventWriteFails : StoreFailures := { addEventFails := true }

/-- Failing ledger write. -/
def markWriteFails : StoreFailures := { markFails := true }

/-- Failing semantic-store write. -/
def storeFactWriteFails : StoreFailures := { storeFactFails := true }

/-- Distance function returning 0 on every pair. -/
def zeroDist : List ℚ → List ℚ → ℚ := fun _ _ => 0

/-- The empty initial system state. -/
def emptyState : SysState := { cache := [], ledger := [], coll := [], events := [] }

/-- Counterexample to claim C1: a turn judged unimportant completes the
pipeline normally yet ends with no LedgerRecord for its messageId — the
ledger write happens only inside the importance branch. -/
theorem unimportant_turn_unledgered :
    (handleAIChat constEmbed zeroDist quietImpModel factExtModel downRefModel "ok"
        noFailures [] "u" "hello" "m1" "t0" "d0" emptyState).1.ledger = [] ∧
    isMessageProcessed
        (handleAIChat constEmbed zeroDist quietImpModel factExtModel downRefModel "ok"
          noFailures [] "u" "hello" "m1" "t0" "d0" emptyState).1.ledger "m1" = false :=
  ⟨rfl, rfl⟩

/-- Claim C1 (amended): a LedgerRecord with processingType immediate and
storedIn the classified category is upserted exactly when detectImportance
judges the turn important with a category other than todo and the event
and ledger writes do not throw; otherwise the ledger is left unchanged and
the turn stays eligible for the batch path. -/
theorem immediate_ledger_only_when_important (embed : String → List ℚ)
    (dist : List ℚ → List ℚ → ℚ)
    (impModel : String → List CacheEntry → Option Importance)
    (extModel : String → List CacheEntry → Option (List ExtractedFact))
    (refModel : String → List CacheEntry → Option String)
    (botReply : String) (fails : StoreFailures) (freshIds : List String)
    (author input msgId ts cutoff : String) (st : SysState)
    (hA : fails.addEventFails = false) (hM : fails.markFails = false) :
    ((detectImportance impModel input
          (st.cache ++ [userEntry author input msgId ts])).important = true →
      (detectImportance impModel input
          (st.cache ++ [userEntry author input msgId ts])).category ≠ "todo" →
      (handleAIChat embed dist impModel extModel refModel botReply fails freshIds
          author input msgId ts cutoff st).1.ledger =
        markMessageProcessed st.ledger msgId "immediate"
          (some (detectImportance impModel input
            (st.cache ++ [userEntry author input msgId ts])).category) ∧
      ledgerLookup
          (handleAIChat embed dist impModel extModel refModel botReply fails freshIds
            author input msgId ts cutoff st).1.ledger msgId =
        some { messageId := msgId, processingType := "immediate",
               storedIn := some (detectImportance impModel input
                 (st.cache ++ [userEntry author input msgId ts])).category }) ∧
    (¬((detectImportance impModel input
          (st.cache ++ [userEntry author input msgId ts])).important = true ∧
        (detectImportance impModel input
          (st.cache ++ [userEntry author input msgId ts])).category ≠ "todo") →
      (handleAIChat embed dist impModel extModel refModel botReply fails freshIds
          author input msgId ts cutoff st).1.ledger = st.ledger) := by
  constructor
  · intro himp hcat
    have hok : (processFacts embed dist msgId ts author input fails.addEventFails
        fails.storeFactFails
        (extractWithContext extModel input
          (st.cache ++ [userEntry author input msgId ts]) msgId)
        freshIds st.coll st.events).2.2 = true := by
      rw [hA]
      exact processFacts_ok embed dist msgId ts author input fails.storeFactFails
        _ freshIds st.coll st.events
    constructor
    · simp [handleAIChat, himp, hcat, hok, hM, finishTurn]
    · simp [handleAIChat, himp, hcat, hok, hM, finishTurn, ledgerLookup_mark_self]
  · intro hn
    simp [handleAIChat, hn, finishTurn]

/-- Witness for immediate_ledger_only_when_important: an important fact
turn on the empty state ends with exactly the immediate ledger row for its
messageId. -/
theorem immediate_ledger_only_when_important_witness :
    (handleAIChat constEmbed zeroDist factImpModel factExtModel downRefModel "ok"
        noFailures ["F9"] "u" "i like pizza" "m1" "t0" "d0" emptyState).1.ledger =
      markMessageProcessed emptyState.ledger "m1" "immediate" (some "fact") :=
  ((immediate_ledger_only_when_important constEmbed zeroDist factImpModel
      factExtModel downRefModel "ok" noFailures ["F9"] "u" "i like pizza" "m1"
      "t0" "d0" emptyState rfl rfl).1 rfl (by decide)).1

/-- True on the normal generated reply, false on the error apology. -/
def isNormalReply : ChatResult → Bool
  | .reply _ _ _ => true
  | .errorReply => false

/-- The generated reply text, none for the error apology. -/
def replyText : ChatResult → Option String
  | .reply t _ _ => some t
  | .errorReply => none

/-- Counterexample to claim C3: when the relational Event write fails
during the immediate pipeline, the entry point does not return a reply
built from the assembled context — it falls into the outer catch and sends
the fixed error apology. -/
theorem event_failure_error_reply :
    (handleAIChat constEmbed zeroDist eventImpModel eventExtModel downRefModel
        "ok" eventWriteFails [] "u" "dinner tonight" "m1" "t0" "d0"
        emptyState).2 = ChatResult.errorReply :=
  rfl

/-- Claim C3 (amended): the entry point always returns a chat result (no
failure escapes its boundary); a throwing classification call degrades
inside detectImportance to a not-important judgment, so the turn still
ends in a normal reply with the ledger untouched; a semantic-store failure
likewise degrades to a normal reply; but a throwing relational Event write
(an event fact being extracted) or a throwing ledger write aborts the turn
with the fixed error apology instead of a context-built reply. -/
theorem chat_failure_policy (embed : String → List ℚ)
    (dist : List ℚ → List ℚ → ℚ)
    (impModel : String → List CacheEntry → Option Importance)
    (extModel : String → List CacheEntry → Option (List ExtractedFact))
    (refModel : String → List CacheEntry → Option String)
    (botReply : String) (fails : StoreFailures) (freshIds : List String)
    (author input msgId ts cutoff : String) (st : SysState) :
    (∀ m ctx, impModel m (lastN contextWindowSize ctx) = none →
      detectImportance impModel m ctx =
        { important := false, reason := "error", category := "none" }) ∧
    (isNormalReply
        (handleAIChat embed dist impModel extModel refModel botReply fails freshIds
          author input msgId ts cutoff st).2 = true ∨
      (handleAIChat embed dist impModel extModel refModel botReply fails freshIds
          author input msgId ts cutoff st).2 = ChatResult.errorReply) ∧
    ((detectImportance impModel input
        (st.cache ++ [userEntry author input msgId ts])).important = false →
      isNormalReply
          (handleAIChat embed dist impModel extModel refModel botReply fails freshIds
            author input msgId ts cutoff st).2 = true ∧
      replyText
          (handleAIChat embed dist impModel extModel refModel botReply fails freshIds
            author input msgId ts cutoff st).2 = some botReply ∧
      (handleAIChat embed dist impModel extModel refModel botReply fails freshIds
          author input msgId ts cutoff st).1.ledger = st.ledger) ∧
    (fails.addEventFails = false → fails.markFails = false →
      isNormalReply
          (handleAIChat embed dist impModel extModel refModel botReply fails freshIds
            author input msgId ts cutoff st).2 = true ∧
      replyText
          (handleAIChat embed dist impModel extModel refModel botReply fails freshIds
            author input msgId ts cutoff st).2 = some botReply) ∧
    ((detectImportance impModel input
        (st.cache ++ [userEntry author input msgId ts])).important = true →
      (detectImportance impModel input
        (st.cache ++ [userEntry author input msgId ts])).category ≠ "todo" →
      fails.addEventFails = true →
      (∃ f ∈ extractWithContext extModel input
          (st.cache ++ [userEntry author input msgId ts]) msgId,
        f.category = "event") →
      (handleAIChat embed dist impModel extModel refModel botReply fails freshIds
          author input msgId ts cutoff st).2 = ChatResult.errorReply) ∧
    ((detectImportance impModel input
        (st.cache ++ [userEntry author input msgId ts])).important = true →
      (detectImportance impModel input
        (st.cache ++ [userEntry author input msgId ts])).category ≠ "todo" →
      fails.markFails = true →
      (processFacts embed dist msgId ts author input fails.addEventFails
          fails.storeFactFails
          (extractWithContext extModel input
            (st.cache ++ [userEntry author input msgId ts]) msgId)
          freshIds st.coll st.events).2.2 = true →
      (handleAIChat embed dist impModel extModel refModel botReply fails freshIds
          author input msgId ts cutoff st).2 = ChatResult.errorReply) := by
  refine ⟨?_, ?_, ?_, ?_, ?_, ?_⟩
  · intro m ctx h
    simp [detectImportance, h]
  · by_cases himp : ((detectImportance impModel input
        (st.cache ++ [userEntry author input msgId ts])).important = true ∧
        (detectImportance impModel input
          (st.cache ++ [userEntry author input msgId ts])).category ≠ "todo")
    · by_cases hpf : (processFacts embed dist msgId ts author input
          fails.addEventFails fails.storeFactFails
          (extractWithContext extModel input
            (st.cache ++ [userEntry author input msgId ts]) msgId)
          freshIds st.coll st.events).2.2 = false
      · right
        simp [handleAIChat, himp, hpf]
      · by_cases hM : fails.markFails = true
        · right
          simp [handleAIChat, himp, hpf, hM]
        · left
          simp only [Bool.not_eq_true] at hM
          simp [handleAIChat, himp, hpf, hM, finishTurn, isNormalReply]
    · left
      simp [handleAIChat, himp, finishTurn, isNormalReply]
  · intro hunimp
    have hcond : ¬((detectImportance impModel input
        (st.cache ++ [userEntry author input msgId ts])).important = true ∧
        (detectImportance impModel input
          (st.cache ++ [userEntry author input msgId ts])).category ≠ "todo") := by
      rw [hunimp]
      simp
    refine ⟨?_, ?_, ?_⟩ <;>
      simp [handleAIChat, hcond, finishTurn, isNormalReply, replyText]
  · intro hA hM
    by_cases himp : ((detectImportance impModel input
        (st.cache ++ [userEntry author input msgId ts])).important = true ∧
        (detectImportance impModel input
          (st.cache ++ [userEntry author input msgId ts])).category ≠ "todo")
    · have hok : (processFacts embed dist msgId ts author input fails.addEventFails
          fails.storeFactFails
          (extractWithContext extModel input
            (st.cache ++ [userEntry author input msgId ts]) msgId)
          freshIds st.coll st.events).2.2 = true := by
        rw [hA]
        exact processFacts_ok embed dist msgId ts author input fails.storeFactFails
          _ freshIds st.coll st.events
      constructor <;>
        simp [handleAIChat, himp, hok, hM, finishTurn, isNormalReply, replyText]
    · constructor <;>
        simp [handleAIChat, himp, finishTurn, isNormalReply, replyText]
  · intro himp hcat hA hev
    have hfail : (processFacts embed dist msgId ts author input fails.addEventFails
        fails.storeFactFails
        (extractWithContext extModel input
          (st.cache ++ [userEntry author input msgId ts]) msgId)
        freshIds st.coll st.events).2.2 = false := by
      rw [hA]
      exact processFacts_fails embed dist msgId ts author input fails.storeFactFails
        _ freshIds st.coll st.events hev
    simp [handleAIChat, himp, hcat, hfail]
  · intro himp hcat hM hok
    simp [handleAIChat, himp, hcat, hok, hM]

/-- Witness for chat_failure_policy: a failing semantic store still yields
the normal bot reply, while a failing ledger write yields the error
apology. -/
theorem chat_failure_policy_witness :
    (isNormalReply (handleAIChat constEmbed zeroDist factImpModel factExtModel
        downRefModel "noted" storeFactWriteFails [] "u" "hi" "m1" "t0" "d0"
        emptyState).2 = true ∧
      replyText (handleAIChat constEmbed zeroDist factImpModel factExtModel
        downRefModel "noted" storeFactWriteFails [] "u" "hi" "m1" "t0" "d0"
        emptyState).2 = some "noted") ∧
    (handleAIChat constEmbed zeroDist factImpModel factExtModel downRefModel
        "ok" markWriteFails [] "u" "hi" "m2" "t0" "d0" emptyState).2 =
      ChatResult.errorReply :=
  ⟨(chat_failure_policy constEmbed zeroDist factImpModel factExtModel downRefModel
      "noted" storeFactWriteFails [] "u" "hi" "m1" "t0" "d0" emptyState).2.2.2.1
      rfl rfl,
   (chat_failure_policy constEmbed zeroDist factImpModel factExtModel downRefModel
      "ok" markWriteFails [] "u" "hi" "m2" "t0" "d0" emptyState).2.2.2.2.2
      rfl (by decide) rfl rfl⟩

theorem trimCache_length_le (l : List CacheEntry) :
    (trimCache l).length ≤ cacheMaxSize := by
  simp only [trimCache, cacheMaxSize, cacheTrimTo]
  split
  · simp only [List.length_drop]
    omega
  · omega

theorem trimCache_eq_drop (l : List CacheEntry) :
    ∃ k, trimCache l = l.drop k := by
  unfold trimCache
  by_cases h : l.length > cacheMaxSize
  · exact ⟨l.length - cacheTrimTo, by rw [if_pos h]⟩
  · exact ⟨0, by rw [if_neg h, List.drop_zero]⟩

/-- One quiet (unimportant, error-free) chat turn, as a fold step. -/
def quietTurn (st : SysState) (i : Nat) : SysState :=
  (handleAIChat constEmbed zeroDist quietImpModel factExtModel downRefModel "ok"
    noFailures [] "u" "hi" (toString i) "t" "d" st).1

/-- The state after 25 quiet turns from the empty state: 50 cache
entries, the bound never being hit. -/
def after25Turns : SysState := (List.range 25).foldl quietTurn emptyState

set_option maxRecDepth 16000 in
/-- Counterexample to claim C5: starting from the empty cache, 25
completed turns reach the bound of 50 entries, and one more user append —
here a turn whose event write throws before the end-of-turn trim — leaves
the cache at 51 entries, exceeding the configured maximum. -/
theorem cache_exceeds_bound :
    after25Turns.cache.length = 50 ∧
    (handleAIChat constEmbed zeroDist eventImpModel eventExtModel downRefModel
        "ok" eventWriteFails [] "u" "hi" "m26" "t" "d"
        after25Turns).1.cache.length = 51 :=
  ⟨rfl, rfl⟩

/-- Claim C5 (amended): the user append itself performs no truncation and
error turns skip the end-of-turn trim, so the size can transiently exceed
the bound; but every turn that completes without a thrown write ends with
the cache trimmed — at most 50 entries, and when the bound was exceeded
exactly the most recent 40 entries in append order are retained (the
result is always a final segment of the appended sequence). -/
theorem turn_cache_bound (embed : String → List ℚ)
    (dist : List ℚ → List ℚ → ℚ)
    (impModel : String → List CacheEntry → Option Importance)
    (extModel : String → List CacheEntry → Option (List ExtractedFact))
    (refModel : String → List CacheEntry → Option String)
    (botReply : String) (fails : StoreFailures) (freshIds : List String)
    (author input msgId ts cutoff : String) (st : SysState)
    (hA : fails.addEventFails = false) (hM : fails.markFails = false) :
    (handleAIChat embed dist impModel extModel refModel botReply fails freshIds
        author input msgId ts cutoff st).1.cache =
      trimCache (st.cache ++
        [userEntry author input msgId ts, assistantEntry botReply]) ∧
    (handleAIChat embed dist impModel extModel refModel botReply fails freshIds
        author input msgId ts cutoff st).1.cache.length
      ≤ cacheMaxSize ∧
    ((st.cache ++ [userEntry author input msgId ts, assistantEntry botReply]).length
        > cacheMaxSize →
      (handleAIChat embed dist impModel extModel refModel botReply fails freshIds
          author input msgId ts cutoff st).1.cache =
        (st.cache ++ [userEntry author input msgId ts, assistantEntry botReply]).drop
          ((st.cache ++ [userEntry author input msgId ts,
            assistantEntry botReply]).length - cacheTrimTo)) ∧
    (∃ k,
      (handleAIChat embed dist impModel extModel refModel botReply fails freshIds
          author input msgId ts cutoff st).1.cache =
        (st.cache ++ [userEntry author input msgId ts, assistantEntry botReply]).drop k) := by
  have hcache :
      (handleAIChat embed dist impModel extModel refModel botReply fails freshIds
          author input msgId ts cutoff st).1.cache =
        trimCache (st.cache ++
          [userEntry author input msgId ts, assistantEntry botReply]) := by
    by_cases himp : ((detectImportance impModel input
        (st.cache ++ [userEntry author input msgId ts])).important = true ∧
        (detectImportance impModel input
          (st.cache ++ [userEntry author input msgId ts])).category ≠ "todo")
    · have hok : (processFacts embed dist msgId ts author input fails.addEventFails
          fails.storeFactFails
          (extractWithContext extModel input
            (st.cache ++ [userEntry author input msgId ts]) msgId)
          freshIds st.coll st.events).2.2 = true := by
        rw [hA]
        exact processFacts_ok embed dist msgId ts author input fails.storeFactFails
          _ freshIds st.coll st.events
      simp [handleAIChat, himp, hok, hM, finishTurn]
    · simp [handleAIChat, himp, finishTurn]
  refine ⟨hcache, ?_, ?_, ?_⟩
  · rw [hcache]
    exact trimCache_length_le _
  · intro hgt
    rw [hcache]
    unfold trimCache
    rw [if_pos hgt]
  · rw [hcache]
    exact trimCache_eq_drop _

/-- Witness for turn_cache_bound: a quiet turn on the empty state ends
with the two-entry cache, within the bound. -/
theorem turn_cache_bound_witness :
    (handleAIChat constEmbed zeroDist quietImpModel factExtModel downRefModel
        "ok" noFailures [] "u" "hi" "m1" "t0" "d0" emptyState).1.cache =
      trimCache (emptyState.cache ++
        [userEntry "u" "hi" "m1" "t0", assistantEntry "ok"]) ∧
    (handleAIChat constEmbed zeroDist quietImpModel factExtModel downRefModel
        "ok" noFailures [] "u" "hi" "m1" "t0" "d0" emptyState).1.cache.length
      ≤ cacheMaxSize :=
  ⟨(turn_cache_bound constEmbed zeroDist quietImpModel factExtModel downRefModel
      "ok" noFailures [] "u" "hi" "m1" "t0" "d0" emptyState rfl rfl).1,
   (turn_cache_bound constEmbed zeroDist quietImpModel factExtModel downRefModel
      "ok" noFailures [] "u" "hi" "m1" "t0" "d0" emptyState rfl rfl).2.1⟩

end Assistant
